import Mathlib

/-!
Verification of the Neti network scanner core against its specification.

The Go sources are shallowly embedded: machine integers become `Nat` with
explicit `% 2^32` where overflow matters, Go slices become `List`, the Go
map used for the resolver cache becomes an association list, and the
OS-dependent effects (ICMP replies, TCP/UDP dials, the `/proc/net/arp`
file, local interfaces, DNS) become explicit environment records passed to
the embedded functions.  Go functions that can fail return `Option` or a
dedicated result type.
-/

namespace Neti

/-- Result of a Go function that can also fail with an error, or (for the
subnet enumeration loop) fail to finish within any bounded number of
iterations. -/
inductive GoResult (α : Type) where
  | ok (val : α)
  | err
  | diverge
deriving DecidableEq

/-! ## AddressEnumerator: scanner.go `GetIPsFromSubnet` / `incrementIP`

An IPv4 address is its 32-bit big-endian numeric value, a `Nat < 2^32`.
-/

/-- scanner.go `incrementIP`: byte-wise increment with carry over a 4-byte
IP slice, i.e. +1 modulo 2^32. -/
def incIP (ip : Nat) : Nat := (ip + 1) % 2 ^ 32

/-- Applying a CIDR netmask with `h` host bits: clears the low `h` bits.
This is Go's `ip.Mask(mask)` and also the comparison done by
`ipNet.Contains` (which checks `ip & mask == network`). -/
def maskIP (ip h : Nat) : Nat := ip / 2 ^ h * 2 ^ h

/-- Byte `i` (0 = least significant) of a 32-bit value. -/
def octet (n i : Nat) : Nat := n / 2 ^ (8 * i) % 256

/-- `net.IP.String()` for a 4-byte IP: dotted-quad decimal. -/
def ipToString (n : Nat) : String :=
  Nat.repr (octet n 3) ++ "." ++ Nat.repr (octet n 2) ++ "." ++
    Nat.repr (octet n 1) ++ "." ++ Nat.repr (octet n 0)

/-- The enumeration loop of `GetIPsFromSubnet`:
`for ip := base; ipNet.Contains(ip); incrementIP(ip) { ips = append(ips, ip.String()) }`.
The Go loop has no fuel; `none` models the loop not finishing within
`fuel` iterations. -/
def enumLoop (base h : Nat) : Nat → Nat → List String → Option (List String)
  | 0, _, _ => none
  | fuel + 1, ip, acc =>
    if maskIP ip h = base then
      enumLoop base h fuel (incIP ip) (acc ++ [ipToString ip])
    else
      some acc

/-- Fuel that is sufficient for every terminating run of the loop
(a prefix-`p` network with `p ≥ 1` has at most 2^31 addresses, and one
extra iteration performs the failing containment test). -/
def netFuel : Nat := 2 ^ 32 + 1

/-! ### `net.ParseCIDR` for IPv4 (Go ≥ 1.17 rules: decimal octets, 1–3
digits, value ≤ 255, no leading zeros; the part after the first `/` must
be all digits with value ≤ 32). -/

/-- Byte-wise `strings.Split` on a one-byte separator, over the character
list of an ASCII string. -/
def splitOnChar (sep : Char) : List Char → List (List Char)
  | [] => [[]]
  | c :: rest =>
    if c = sep then [] :: splitOnChar sep rest
    else
      match splitOnChar sep rest with
      | g :: gs => (c :: g) :: gs
      | [] => [[c]]

/-- Decimal value of a digit run (how Go's `dtoi` accumulates). -/
def digitsVal (cs : List Char) : Nat :=
  cs.foldl (fun a c => a * 10 + (c.toNat - 48)) 0

/-- One dotted-quad field. -/
def parseOctet (cs : List Char) : Option Nat :=
  if cs.length = 0 ∨ 3 < cs.length then none
  else if ¬ cs.all Char.isDigit then none
  else if 1 < cs.length ∧ cs.head? = some '0' then none
  else if digitsVal cs ≤ 255 then some (digitsVal cs)
  else none

/-- `net.ParseIP` restricted to IPv4 dotted-quad form, returning the
32-bit big-endian numeric value. -/
def parseIPv4 (s : String) : Option Nat :=
  match splitOnChar '.' s.data with
  | [a, b, c, d] =>
    match parseOctet a, parseOctet b, parseOctet c, parseOctet d with
    | some a, some b, some c, some d =>
      some (((a * 256 + b) * 256 + c) * 256 + d)
    | _, _, _, _ => none
  | _ => none

/-- The text after the `/`: a run of decimal digits whose value is at most
32 (Go's `dtoi` accepts leading zeros here). -/
def parseMaskLen (cs : List Char) : Option Nat :=
  if cs.length = 0 then none
  else if ¬ cs.all Char.isDigit then none
  else if digitsVal cs ≤ 32 then some (digitsVal cs)
  else none

/-- `net.ParseCIDR` for IPv4, returning the masked network base and the
mask length.  `GetIPsFromSubnet` starts its loop from
`ipNet.IP.Mask(ipNet.Mask)`, which equals this masked base. -/
def parseCIDR (s : String) : Option (Nat × Nat) :=
  match splitOnChar '/' s.data with
  | [ipStr, maskStr] =>
    match parseIPv4 ⟨ipStr⟩, parseMaskLen maskStr with
    | some ip, some p => some (maskIP ip (32 - p), p)
    | _, _ => none
  | _ => none

/-- The post-parse part of `GetIPsFromSubnet`: enumerate every contained
address in ascending order, then strip the first (network) and last
(broadcast) address whenever more than 2 addresses were produced. -/
def enumIPs (base p : Nat) : GoResult (List String) :=
  match enumLoop base (32 - p) netFuel base [] with
  | none => .diverge
  | some ips => .ok (if 2 < ips.length then (ips.drop 1).dropLast else ips)

/-- scanner.go `GetIPsFromSubnet`. -/
def getIPsFromSubnet (subnet : String) : GoResult (List String) :=
  match parseCIDR subnet with
  | none => .err
  | some (base, p) => enumIPs base p

lemma getIPsFromSubnet_parse_some {s : String} {base p : Nat}
    (h : parseCIDR s = some (base, p)) : getIPsFromSubnet s = enumIPs base p := by
  unfold getIPsFromSubnet
  rw [h]

lemma enumIPs_of_some {base p : Nat} {ips : List String}
    (h : enumLoop base (32 - p) netFuel base [] = some ips) :
    enumIPs base p = .ok (if 2 < ips.length then (ips.drop 1).dropLast else ips) := by
  unfold enumIPs
  rw [h]

lemma enumIPs_of_none {base p : Nat}
    (h : enumLoop base (32 - p) netFuel base [] = none) :
    enumIPs base p = .diverge := by
  unfold enumIPs
  rw [h]

/-! ### Correctness of the enumeration loop -/

lemma maskIP_of_mod_eq_zero {x h : Nat} (hx : x % 2 ^ h = 0) : maskIP x h = x :=
  Nat.div_mul_cancel (Nat.dvd_of_mod_eq_zero hx)

lemma maskIP_add_of_lt {base h j : Nat} (hal : base % 2 ^ h = 0) (hj : j < 2 ^ h) :
    maskIP (base + j) h = base := by
  obtain ⟨q, rfl⟩ := Nat.dvd_of_mod_eq_zero hal
  unfold maskIP
  have h1 : (2 ^ h * q + j) / 2 ^ h = q := by
    rw [Nat.add_comm, Nat.add_mul_div_left _ _ (Nat.pow_pos (by norm_num)),
      Nat.div_eq_of_lt hj, Nat.zero_add]
  rw [h1, Nat.mul_comm]

lemma base_add_block_le {base h : Nat} (hh : h ≤ 32) (hb : base < 2 ^ 32)
    (hal : base % 2 ^ h = 0) : base + 2 ^ h ≤ 2 ^ 32 := by
  obtain ⟨q, rfl⟩ := Nat.dvd_of_mod_eq_zero hal
  have h2 : (2 : Nat) ^ 32 = 2 ^ h * 2 ^ (32 - h) := by
    rw [← pow_add]
    congr 1
    omega
  have hq : q < 2 ^ (32 - h) := by
    by_contra hq
    push_neg at hq
    have := Nat.mul_le_mul_left (2 ^ h) hq
    omega
  have h3 : 2 ^ h * (q + 1) ≤ 2 ^ h * 2 ^ (32 - h) := Nat.mul_le_mul_left _ (by omega)
  rw [Nat.mul_add, Nat.mul_one] at h3
  omega

/-- The enumeration loop, started anywhere inside an aligned block of
`2 ^ h` addresses with enough fuel, visits exactly the rest of the block
in ascending order and then stops. -/
lemma enumLoop_run {h base : Nat} (hh : h ≤ 31) (hb : base < 2 ^ 32)
    (hal : base % 2 ^ h = 0) :
    ∀ n j fuel acc, j + n = 2 ^ h → n < fuel →
      enumLoop base h fuel ((base + j) % 2 ^ 32) acc =
        some (acc ++ (List.range n).map (fun i => ipToString (base + j + i))) := by
  have hble : base + 2 ^ h ≤ 2 ^ 32 := base_add_block_le (by omega) hb hal
  have hpow : (0 : Nat) < 2 ^ h := Nat.pow_pos (by norm_num)
  have hpow31 : (2 : Nat) ^ h ≤ 2 ^ 31 := Nat.pow_le_pow_right (by norm_num) hh
  intro n
  induction n with
  | zero =>
    intro j fuel acc hj hfuel
    obtain ⟨f, rfl⟩ : ∃ f, fuel = f + 1 := ⟨fuel - 1, by omega⟩
    have hj2 : j = 2 ^ h := by omega
    subst hj2
    have hcond : ¬ maskIP ((base + 2 ^ h) % 2 ^ 32) h = base := by
      rcases Nat.lt_or_ge (base + 2 ^ h) (2 ^ 32) with hlt | hge
      · rw [Nat.mod_eq_of_lt hlt]
        have hmod : (base + 2 ^ h) % 2 ^ h = 0 := by
          rw [Nat.add_mod_right]
          exact hal
        rw [maskIP_of_mod_eq_zero hmod]
        omega
      · have heq : base + 2 ^ h = 2 ^ 32 := by omega
        rw [heq, Nat.mod_self]
        have hb0 : 0 < base := by
          have h31 : (2 : Nat) ^ 31 < 2 ^ 32 := by norm_num
          omega
        have : maskIP 0 h = 0 := by
          unfold maskIP
          simp
        omega
    rw [show enumLoop base h (f + 1) ((base + 2 ^ h) % 2 ^ 32) acc =
          if maskIP ((base + 2 ^ h) % 2 ^ 32) h = base then
            enumLoop base h f (incIP ((base + 2 ^ h) % 2 ^ 32))
              (acc ++ [ipToString ((base + 2 ^ h) % 2 ^ 32)])
          else some acc from rfl,
      if_neg hcond]
    simp
  | succ n ih =>
    intro j fuel acc hj hfuel
    obtain ⟨f, rfl⟩ : ∃ f, fuel = f + 1 := ⟨fuel - 1, by omega⟩
    have hjlt : j < 2 ^ h := by omega
    have hlt : base + j < 2 ^ 32 := by omega
    rw [Nat.mod_eq_of_lt hlt]
    have hcond : maskIP (base + j) h = base := maskIP_add_of_lt hal hjlt
    have hstep : incIP (base + j) = (base + (j + 1)) % 2 ^ 32 := rfl
    rw [show enumLoop base h (f + 1) (base + j) acc =
          if maskIP (base + j) h = base then
            enumLoop base h f (incIP (base + j)) (acc ++ [ipToString (base + j)])
          else some acc from rfl,
      if_pos hcond, hstep,
      ih (j + 1) f (acc ++ [ipToString (base + j)]) (by omega) (by omega)]
    congr 1
    rw [List.range_succ_eq_map, List.map_cons, List.map_map]
    have hfun : (fun i => ipToString (base + j + i)) ∘ Nat.succ
        = fun i => ipToString (base + (j + 1) + i) := by
      funext i
      simp only [Function.comp]
      congr 1
      omega
    rw [hfun]
    simp

/-- With mask length 0 the containment test never fails, so the loop
consumes all its fuel: the Go loop never exits. -/
lemma enumLoop_h32_none : ∀ fuel ip acc, ip < 2 ^ 32 →
    enumLoop 0 32 fuel ip acc = none := by
  intro fuel
  induction fuel with
  | zero => intro ip acc _; rfl
  | succ f ih =>
    intro ip acc hip
    have hc : maskIP ip 32 = 0 := by
      unfold maskIP
      rw [Nat.div_eq_of_lt hip, Nat.zero_mul]
    simp only [enumLoop, hc, if_pos]
    exact ih _ _ (Nat.mod_lt _ (by norm_num))

/-! ### Soundness of the CIDR parser -/

lemma parseOctet_le {cs : List Char} {v : Nat} (h : parseOctet cs = some v) :
    v ≤ 255 := by
  unfold parseOctet at h
  split_ifs at h with h1 h2 h3 h4 <;>
    first
      | (simp only [Option.some.injEq] at h; omega)
      | exact absurd h (by simp)

lemma parseMaskLen_le {cs : List Char} {p : Nat} (h : parseMaskLen cs = some p) :
    p ≤ 32 := by
  unfold parseMaskLen at h
  split_ifs at h with h1 h2 h3 <;>
    first
      | (simp only [Option.some.injEq] at h; omega)
      | exact absurd h (by simp)

lemma parseIPv4_lt {s : String} {n : Nat} (h : parseIPv4 s = some n) :
    n < 2 ^ 32 := by
  unfold parseIPv4 at h
  split at h
  · rename_i a b c d _
    split at h
    · rename_i va vb vc vd ha hb hc hd
      simp only [Option.some.injEq] at h
      have h1 := parseOctet_le ha
      have h2 := parseOctet_le hb
      have h3 := parseOctet_le hc
      have h4 := parseOctet_le hd
      omega
    · exact absurd h (by simp)
  · exact absurd h (by simp)

lemma parseCIDR_sound {s : String} {base p : Nat}
    (h : parseCIDR s = some (base, p)) :
    p ≤ 32 ∧ base < 2 ^ 32 ∧ base % 2 ^ (32 - p) = 0 := by
  unfold parseCIDR at h
  split at h
  · rename_i ipStr maskStr _
    split at h
    · rename_i ip plen hip hplen
      simp only [Option.some.injEq, Prod.mk.injEq] at h
      obtain ⟨hbase, hp⟩ := h
      subst hbase
      subst hp
      refine ⟨parseMaskLen_le hplen, ?_, Nat.mul_mod_left _ _⟩
      calc maskIP ip (32 - plen) ≤ ip := Nat.div_mul_le_self _ _
        _ < 2 ^ 32 := parseIPv4_lt hip
    · exact absurd h (by simp)
  · exact absurd h (by simp)

/-- For a parsed network with mask length at least 1, the whole loop run:
it terminates and produces every address of the block in ascending order. -/
lemma getIPs_run {base p : Nat} (hp : 1 ≤ p) (hple : p ≤ 32) (hb : base < 2 ^ 32)
    (hal : base % 2 ^ (32 - p) = 0) :
    enumLoop base (32 - p) netFuel base [] =
      some ((List.range (2 ^ (32 - p))).map (fun i => ipToString (base + i))) := by
  have hh : 32 - p ≤ 31 := by omega
  have hfuel : 2 ^ (32 - p) < netFuel := by
    have : (2 : Nat) ^ (32 - p) ≤ 2 ^ 31 := Nat.pow_le_pow_right (by norm_num) hh
    unfold netFuel
    have h31 : (2 : Nat) ^ 31 ≤ 2 ^ 32 := by norm_num
    omega
  have hrun := enumLoop_run hh hb hal (2 ^ (32 - p)) 0 netFuel []
    (by omega) hfuel
  rw [Nat.mod_eq_of_lt (by omega : base + 0 < 2 ^ 32)] at hrun
  simpa using hrun

lemma strip_map_range {f : Nat → String} {m : Nat} (hm : 2 < m) :
    (((List.range m).map f).drop 1).dropLast
      = (List.range (m - 2)).map (fun i => f (i + 1)) := by
  obtain ⟨k, rfl⟩ : ∃ k, m = k + 1 + 1 := ⟨m - 2, by omega⟩
  rw [List.range_succ_eq_map, List.map_cons, List.drop_one, List.tail_cons,
    List.map_map, List.range_succ, List.map_append]
  simp only [List.map_cons, List.map_nil, List.dropLast_concat]
  rfl

/-- C1 (amended with mask length ≥ 1): the happy-path enumeration result,
plus the inline `/30` scenario. -/
theorem C1_expand_strips_network_broadcast :
    (∀ s base p, parseCIDR s = some (base, p) → 1 ≤ p → 2 < 2 ^ (32 - p) →
      getIPsFromSubnet s =
        .ok ((List.range (2 ^ (32 - p) - 2)).map (fun i => ipToString (base + 1 + i))))
    ∧ getIPsFromSubnet "192.168.1.0/30" = .ok ["192.168.1.1", "192.168.1.2"] := by
  constructor
  · intro s base p hparse hp hbig
    obtain ⟨hple, hb, hal⟩ := parseCIDR_sound hparse
    have hrun := getIPs_run hp hple hb hal
    rw [getIPsFromSubnet_parse_some hparse, enumIPs_of_some hrun]
    have hlen : ((List.range (2 ^ (32 - p))).map
        (fun i => ipToString (base + i))).length = 2 ^ (32 - p) := by
      simp
    rw [if_pos (by omega : 2 < ((List.range (2 ^ (32 - p))).map
      (fun i => ipToString (base + i))).length)]
    rw [strip_map_range hbig]
    refine congrArg GoResult.ok (List.map_congr_left ?_)
    intro i _
    show ipToString (base + (i + 1)) = ipToString (base + 1 + i)
    congr 1
    omega
  · decide

/-- The amendment is forced: `"0.0.0.0/0"` is a valid CIDR whose masked
network contains more than 2 addresses, yet the enumeration loop of
`GetIPsFromSubnet` never exits (incrementIP wraps 255.255.255.255 to
0.0.0.0, still contained), so no address list is ever returned. -/
theorem C1_counterexample_prefix0 :
    getIPsFromSubnet "0.0.0.0/0" = GoResult.diverge ∧ 2 < 2 ^ (32 - 0) := by
  constructor
  · have hparse : parseCIDR "0.0.0.0/0" = some (0, 0) := by decide
    have hnone : enumLoop 0 (32 - 0) netFuel 0 [] = none :=
      enumLoop_h32_none netFuel 0 [] (by norm_num)
    rw [getIPsFromSubnet_parse_some hparse, enumIPs_of_none hnone]
  · norm_num

/-- Witness for C1 at the concrete input 10.0.0.0/29. -/
theorem C1_witness :
    parseCIDR "10.0.0.0/29" = some (167772160, 29) ∧ 1 ≤ 29 ∧ 2 < 2 ^ (32 - 29) ∧
      getIPsFromSubnet "10.0.0.0/29" =
        .ok ((List.range (2 ^ (32 - 29) - 2)).map (fun i => ipToString (167772160 + 1 + i))) :=
  ⟨by decide, by decide, by decide,
    C1_expand_strips_network_broadcast.1 "10.0.0.0/29" 167772160 29
      (by decide) (by decide) (by decide)⟩

/-- C9: with at most 2 addresses in the network (/31 and /32), nothing is
stripped: every address of the block is returned, in ascending order. -/
theorem C9_small_subnets_unfiltered :
    ∀ s base p, parseCIDR s = some (base, p) → 2 ^ (32 - p) ≤ 2 →
      getIPsFromSubnet s =
        .ok ((List.range (2 ^ (32 - p))).map (fun i => ipToString (base + i))) := by
  intro s base p hparse hsmall
  obtain ⟨hple, hb, hal⟩ := parseCIDR_sound hparse
  have hp : 1 ≤ p := by
    by_contra hp0
    have hp0 : p = 0 := by omega
    subst hp0
    have : (2 : Nat) ^ 32 ≤ 2 := by simpa using hsmall
    norm_num at this
  have hrun := getIPs_run hp hple hb hal
  rw [getIPsFromSubnet_parse_some hparse, enumIPs_of_some hrun]
  rw [if_neg]
  simp only [List.length_map, List.length_range]
  omega

/-- Witness for C9 at the concrete inputs 192.168.1.0/31 and /32. -/
theorem C9_witness :
    parseCIDR "192.168.1.0/31" = some (3232235776, 31) ∧ 2 ^ (32 - 31) ≤ 2 ∧
      getIPsFromSubnet "192.168.1.0/31" =
        .ok ((List.range (2 ^ (32 - 31))).map (fun i => ipToString (3232235776 + i))) :=
  ⟨by decide, by decide,
    C9_small_subnets_unfiltered "192.168.1.0/31" 3232235776 31 (by decide) (by decide)⟩

/-- C10: for every valid CIDR with mask length ≥ 1 the enumeration loop
terminates, visiting exactly 2^(32-p) addresses; the restriction is
necessary: `incrementIP` wraps the all-ones address to 0, the mask-0
containment test accepts 0, and with mask length 0 the loop never exits
however much fuel it is given. -/
theorem C10_loop_termination :
    (∀ s base p, parseCIDR s = some (base, p) → 1 ≤ p →
      ∃ l, enumLoop base (32 - p) netFuel base [] = some l ∧
        l.length = 2 ^ (32 - p))
    ∧ incIP (2 ^ 32 - 1) = 0
    ∧ maskIP 0 32 = 0
    ∧ (∀ fuel acc, enumLoop 0 32 fuel 0 acc = none) := by
  refine ⟨?_, by decide, by decide, ?_⟩
  · intro s base p hparse hp
    obtain ⟨hple, hb, hal⟩ := parseCIDR_sound hparse
    exact ⟨_, getIPs_run hp hple hb hal, by simp⟩
  · intro fuel acc
    exact enumLoop_h32_none fuel 0 acc (by norm_num)

/-- Witness for C10 at the concrete input 10.0.0.0/30. -/
theorem C10_witness :
    parseCIDR "10.0.0.0/30" = some (167772160, 30) ∧ 1 ≤ 30 ∧
      ∃ l, enumLoop 167772160 (32 - 30) netFuel 167772160 [] = some l ∧
        l.length = 2 ^ (32 - 30) :=
  ⟨by decide, by decide,
    C10_loop_termination.1 "10.0.0.0/30" 167772160 30 (by decide) (by decide)⟩

/-! ## MacResolver: macaddr/resolver.go and macaddr/arp_linux.go

The resolver state is its cache (a Go map, embedded as an association
list: insertion overwrites an existing key) and the `arpLoaded` flag.
The environment carries the `/proc/net/arp` contents (`none` models the
file failing to open; otherwise the whitespace-split fields of each
non-header line) and the local network interfaces.  Locking disappears in
this sequential embedding; `sendARPRequest` only nudges the kernel, so
with a fixed environment it is a no-op on the resolver state. -/

/-- strings.ToUpper restricted to ASCII (all characters relevant to MAC
strings are ASCII). -/
def asciiUpper (c : Char) : Char :=
  match c with
  | 'a' => 'A' | 'b' => 'B' | 'c' => 'C' | 'd' => 'D' | 'e' => 'E' | 'f' => 'F'
  | 'g' => 'G' | 'h' => 'H' | 'i' => 'I' | 'j' => 'J' | 'k' => 'K' | 'l' => 'L'
  | 'm' => 'M' | 'n' => 'N' | 'o' => 'O' | 'p' => 'P' | 'q' => 'Q' | 'r' => 'R'
  | 's' => 'S' | 't' => 'T' | 'u' => 'U' | 'v' => 'V' | 'w' => 'W' | 'x' => 'X'
  | 'y' => 'Y' | 'z' => 'Z'
  | other => other

def strUpper (s : String) : String := ⟨s.data.map asciiUpper⟩

/-- Hex digit as accepted by Go's `xtoi`. -/
def isHexDigit (c : Char) : Bool :=
  ('0' ≤ c && c ≤ '9') || ('a' ≤ c && c ≤ 'f') || ('A' ≤ c && c ≤ 'F')

/-- Groups of two hex digits joined by `sep` (the colon/dash format of
`net.ParseMAC`). -/
def hexPairs (sep : Char) : List Char → Bool
  | [a, b] => isHexDigit a && isHexDigit b
  | a :: b :: s :: rest => isHexDigit a && isHexDigit b && s == sep && hexPairs sep rest
  | _ => false

/-- Groups of four hex digits joined by `sep` (the dotted format of
`net.ParseMAC`). -/
def hexQuads (sep : Char) : List Char → Bool
  | [a, b, c, d] => isHexDigit a && isHexDigit b && isHexDigit c && isHexDigit d
  | a :: b :: c :: d :: s :: rest =>
    isHexDigit a && isHexDigit b && isHexDigit c && isHexDigit d && s == sep &&
      hexQuads sep rest
  | _ => false

/-- Character-level model of `net.ParseMAC` succeeding: length at least
14; either byte 2 is `:` or `-` and the string is 6, 8 or 20 two-digit
hex groups, or byte 4 is `.` and the string is 3, 4 or 10 four-digit hex
groups. -/
def parseMACok (s : String) : Bool :=
  if s.data.length < 14 then false
  else
    match s.data[2]? with
    | some c2 =>
      if c2 == ':' || c2 == '-' then
        ((s.data.length + 1) % 3 == 0) &&
          ((s.data.length + 1) / 3 == 6 || (s.data.length + 1) / 3 == 8 ||
            (s.data.length + 1) / 3 == 20) &&
          hexPairs c2 s.data
      else
        match s.data[4]? with
        | some c4 =>
          if c4 == '.' then
            ((s.data.length + 1) % 5 == 0) &&
              (2 * ((s.data.length + 1) / 5) == 6 ||
                2 * ((s.data.length + 1) / 5) == 8 ||
                2 * ((s.data.length + 1) / 5) == 20) &&
              hexQuads '.' s.data
          else false
        | none => false
    | none => false

/-- arp_linux.go `isValidMAC`: parses as a MAC and is not the literal
all-zero colon-separated MAC. -/
def isValidMAC (mac : String) : Bool :=
  parseMACok mac && mac != "00:00:00:00:00:00"

/-- Lookup in the embedded Go map. -/
def aLookup (k : String) : List (String × String) → Option String
  | [] => none
  | (k', v) :: rest => if k' = k then some v else aLookup k rest

/-- Insertion into the embedded Go map (overwrites an existing key). -/
def aInsert (k v : String) : List (String × String) → List (String × String)
  | [] => [(k, v)]
  | (k', v') :: rest => if k' = k then (k, v) :: rest else (k', v') :: aInsert k v rest

/-- A local network interface as seen through `net.Interfaces()`:
whether it is up, the IP addresses bound to it, and the
`HardwareAddr.String()` text. -/
structure NetIface where
  up : Bool
  addrs : List String
  hw : String

/-- The OS facts the resolver reads. -/
structure REnv where
  arpFile : Option (List (List String))
  ifaces : List NetIface

/-- The resolver's own state: macaddr/resolver.go `Resolver`. -/
structure RState where
  cache : List (String × String)
  arpLoaded : Bool
deriving DecidableEq

/-- One data line of `/proc/net/arp` as consumed by the loader:
needs at least 4 fields; field 0 is the IP, field 3 the MAC, stored
upper-cased when `isValidMAC` accepts it. -/
def arpStep (c : List (String × String)) (line : List String) :
    List (String × String) :=
  match line with
  | f0 :: _ :: _ :: f3 :: _ => if isValidMAC f3 then aInsert f0 (strUpper f3) c else c
  | _ => c

/-- arp_linux.go `loadLinuxARPTable`: early-returns when `arpLoaded` is
already set; on file-open failure returns without touching anything;
otherwise folds the data lines into the cache and sets `arpLoaded`. -/
def loadLinuxARPTable (env : REnv) (r : RState) : RState :=
  if r.arpLoaded then r
  else
    match env.arpFile with
    | none => r
    | some lines => { cache := lines.foldl arpStep r.cache, arpLoaded := true }

/-- resolver.go `ensureARPTableLoaded` (the loader is always present on
the modelled Linux platform). -/
def ensureARPTableLoaded (env : REnv) (r : RState) : RState :=
  if r.arpLoaded then r else loadLinuxARPTable env r

/-- resolver.go `reloadARPTable`: despite its comment it only calls the
loader; no flag is reset. -/
def reloadARPTable (env : REnv) (r : RState) : RState :=
  loadLinuxARPTable env r

/-- resolver.go `getMACFromCache`. -/
def getMACFromCache (r : RState) (ip : String) : String :=
  match aLookup ip r.cache with
  | some mac => mac
  | none => ""

/-- Whether an up interface carries the target IP (the
`ipnet.IP.Equal(targetIP)` test, on parsed IPv4 values). -/
def ifaceHasIP (n : Nat) (ifc : NetIface) : Bool :=
  ifc.up && ifc.addrs.any (fun a => parseIPv4 a == some n)

/-- resolver.go `getMACFromLocalInterfaces`: the first matching up
interface's hardware address, upper-cased; empty string otherwise. -/
def getMACFromLocalInterfaces (env : REnv) (ip : String) : String :=
  match parseIPv4 ip with
  | none => ""
  | some n =>
    match env.ifaces.find? (ifaceHasIP n) with
    | some ifc => strUpper ifc.hw
    | none => ""

/-- resolver.go `GetMACAddress`.  `sendARPRequest` (a fire-and-forget UDP
dial) does not change the resolver state and, with the environment held
fixed, does not change what a reload can observe, so it contributes no
state transition here. -/
def getMACAddress (env : REnv) (r : RState) (ip : String) : String × RState :=
  let m0 := getMACFromCache r ip
  if m0 ≠ "" then (m0, r)
  else
    let lm := getMACFromLocalInterfaces env ip
    if lm ≠ "" then (lm, { r with cache := aInsert ip lm r.cache })
    else
      let r1 := ensureARPTableLoaded env r
      let m1 := getMACFromCache r1 ip
      if m1 ≠ "" then (m1, r1)
      else
        let r2 := reloadARPTable env r1
        let m2 := getMACFromCache r2 ip
        if m2 ≠ "" then (m2, r2)
        else
          let r3 := reloadARPTable env r2
          (getMACFromCache r3 ip, r3)

/-- Net value the ARP file holds for `ip`: the upper-cased MAC of the
last data line with at least 4 fields whose field 0 is `ip` and whose
field 3 passes `isValidMAC` (later lines overwrite earlier ones in the
fold). -/
def lineEntry (ip : String) (line : List String) : Option String :=
  match line with
  | f0 :: _ :: _ :: f3 :: _ =>
    if f0 = ip ∧ isValidMAC f3 = true then some (strUpper f3) else none
  | _ => none

def tableLines (ip : String) : List (List String) → Option String
  | [] => none
  | line :: rest =>
    match tableLines ip rest with
    | some v => some v
    | none => lineEntry ip line

def tableValue (env : REnv) (ip : String) : Option String :=
  match env.arpFile with
  | none => none
  | some lines => tableLines ip lines

/-! ### Upper-casing preserves MAC validity -/

lemma asciiUpper_hex {c : Char} (h : isHexDigit c = true) :
    isHexDigit (asciiUpper c) = true := by
  unfold asciiUpper
  split
  all_goals first | decide | (revert h; decide) | exact h

lemma asciiUpper_zero_inv {c : Char} (h : asciiUpper c = '0') : c = '0' := by
  unfold asciiUpper at h
  split at h
  all_goals first | exact absurd h (by decide) | exact h

lemma asciiUpper_colon_inv {c : Char} (h : asciiUpper c = ':') : c = ':' := by
  unfold asciiUpper at h
  split at h
  all_goals first | exact absurd h (by decide) | exact h

lemma hexPairs_map {sep : Char} (hsep : asciiUpper sep = sep) :
    ∀ cs, hexPairs sep cs = true → hexPairs sep (cs.map asciiUpper) = true
  | [] => by intro h; simp [hexPairs] at h
  | [a] => by intro h; simp [hexPairs] at h
  | [a, b] => by
    intro h
    simp only [hexPairs, Bool.and_eq_true] at h
    simp only [List.map_cons, List.map_nil, hexPairs, Bool.and_eq_true]
    exact ⟨asciiUpper_hex h.1, asciiUpper_hex h.2⟩
  | a :: b :: s :: rest => by
    intro h
    simp only [hexPairs, Bool.and_eq_true, beq_iff_eq] at h
    obtain ⟨⟨⟨ha, hb⟩, hs⟩, hr⟩ := h
    subst hs
    simp only [List.map_cons, hexPairs, Bool.and_eq_true, beq_iff_eq]
    exact ⟨⟨⟨asciiUpper_hex ha, asciiUpper_hex hb⟩, hsep⟩,
      hexPairs_map hsep rest hr⟩

lemma hexQuads_map {sep : Char} (hsep : asciiUpper sep = sep) :
    ∀ cs, hexQuads sep cs = true → hexQuads sep (cs.map asciiUpper) = true
  | [] => by intro h; simp [hexQuads] at h
  | [a] => by intro h; simp [hexQuads] at h
  | [a, b] => by intro h; simp [hexQuads] at h
  | [a, b, c] => by intro h; simp [hexQuads] at h
  | [a, b, c, d] => by
    intro h
    simp only [hexQuads, Bool.and_eq_true] at h
    simp only [List.map_cons, List.map_nil, hexQuads, Bool.and_eq_true]
    exact ⟨⟨⟨asciiUpper_hex h.1.1.1, asciiUpper_hex h.1.1.2⟩,
      asciiUpper_hex h.1.2⟩, asciiUpper_hex h.2⟩
  | a :: b :: c :: d :: s :: rest => by
    intro h
    simp only [hexQuads, Bool.and_eq_true, beq_iff_eq] at h
    obtain ⟨⟨⟨⟨⟨ha, hb⟩, hc⟩, hd⟩, hs⟩, hr⟩ := h
    subst hs
    simp only [List.map_cons, hexQuads, Bool.and_eq_true, beq_iff_eq]
    exact ⟨⟨⟨⟨⟨asciiUpper_hex ha, asciiUpper_hex hb⟩, asciiUpper_hex hc⟩,
      asciiUpper_hex hd⟩, hsep⟩, hexQuads_map hsep rest hr⟩

lemma parseMACok_length {s : String} (h : parseMACok s = true) :
    14 ≤ s.data.length := by
  by_contra hlen
  push_neg at hlen
  unfold parseMACok at h
  rw [if_pos hlen] at h
  exact absurd h (by simp)

lemma strUpper_data (s : String) : (strUpper s).data = s.data.map asciiUpper := rfl

lemma asciiUpper_dash_inv {c : Char} (h : asciiUpper c = '-') : c = '-' := by
  unfold asciiUpper at h
  split at h
  all_goals first | exact absurd h (by decide) | exact h

lemma parseMACok_upper {s : String} (h : parseMACok s = true) :
    parseMACok (strUpper s) = true := by
  have hlen := parseMACok_length h
  unfold parseMACok at h ⊢
  rw [if_neg (by omega)] at h
  rw [strUpper_data, List.length_map, List.getElem?_map, List.getElem?_map,
    if_neg (by omega)]
  cases h2 : s.data[2]? with
  | none => rw [h2] at h; exact absurd h (by simp)
  | some c2 =>
    rw [h2] at h
    simp only [] at h
    simp only [Option.map_some']
    by_cases hc2 : (c2 == ':' || c2 == '-') = true
    · have hor : c2 = ':' ∨ c2 = '-' := by simpa using hc2
      have hfix : asciiUpper c2 = c2 := by
        rcases hor with rfl | rfl <;> decide
      rw [if_pos hc2] at h
      rw [hfix, if_pos hc2]
      simp only [Bool.and_eq_true] at h ⊢
      obtain ⟨h1, h3⟩ := h
      exact ⟨h1, hexPairs_map hfix _ h3⟩
    · have hnc : ¬ (asciiUpper c2 == ':' || asciiUpper c2 == '-') = true := by
        intro hx
        have hor : asciiUpper c2 = ':' ∨ asciiUpper c2 = '-' := by simpa using hx
        rcases hor with h' | h'
        · have hcc := asciiUpper_colon_inv h'
          subst hcc
          exact hc2 (by decide)
        · have hcc := asciiUpper_dash_inv h'
          subst hcc
          exact hc2 (by decide)
      rw [if_neg hc2] at h
      rw [if_neg hnc]
      cases h4 : s.data[4]? with
      | none => rw [h4] at h; exact absurd h (by simp)
      | some c4 =>
        rw [h4] at h
        simp only [] at h
        simp only [Option.map_some']
        by_cases hc4 : (c4 == '.') = true
        · have hc4' : c4 = '.' := by simpa using hc4
          subst hc4'
          rw [if_pos hc4] at h
          rw [if_pos (show (asciiUpper '.' == '.') = true by decide)]
          simp only [Bool.and_eq_true] at h ⊢
          obtain ⟨h1, h3⟩ := h
          exact ⟨h1, hexQuads_map (by decide) _ h3⟩
        · rw [if_neg hc4] at h
          exact absurd h (by simp)

lemma map_asciiUpper_fixed : ∀ (l t : List Char),
    l.map asciiUpper = t → (∀ d ∈ t, ∀ c, asciiUpper c = d → c = d) → l = t := by
  intro l
  induction l with
  | nil =>
    intro t h _
    simpa using h
  | cons c cl ih =>
    intro t h hfix
    cases t with
    | nil => simp at h
    | cons d dl =>
      simp only [List.map_cons, List.cons.injEq] at h
      obtain ⟨h1, h2⟩ := h
      have hc : c = d := hfix d (by simp) c h1
      have hcl : cl = dl :=
        ih dl h2 (fun d' hd' c' hc' => hfix d' (List.mem_cons_of_mem _ hd') c' hc')
      rw [hc, hcl]

lemma strUpper_eq_zeroMAC_inv {m : String}
    (h : strUpper m = "00:00:00:00:00:00") : m = "00:00:00:00:00:00" := by
  have hd : m.data.map asciiUpper = "00:00:00:00:00:00".data := congrArg String.data h
  have hlist : m.data = "00:00:00:00:00:00".data := by
    apply map_asciiUpper_fixed _ _ hd
    intro d hd' c hc
    have hz : "00:00:00:00:00:00".data =
        ['0', '0', ':', '0', '0', ':', '0', '0', ':', '0', '0', ':',
          '0', '0', ':', '0', '0'] := rfl
    rw [hz] at hd'
    have hdz : d = '0' ∨ d = ':' := by
      simp only [List.mem_cons, List.not_mem_nil, or_false] at hd'
      rcases hd' with rfl | rfl | rfl | rfl | rfl | rfl | rfl | rfl | rfl | rfl |
        rfl | rfl | rfl | rfl | rfl | rfl | rfl
      all_goals simp
    rcases hdz with rfl | rfl
    · exact asciiUpper_zero_inv hc
    · exact asciiUpper_colon_inv hc
  cases m with
  | mk l =>
    simp only [String.data] at hlist
    rw [hlist]

lemma strUpper_ne_empty {m : String} (h : parseMACok m = true) :
    strUpper m ≠ "" := by
  intro heq
  have hd : m.data.map asciiUpper = ([] : List Char) := congrArg String.data heq
  have := parseMACok_length h
  have hlen : m.data.length = 0 := by
    have := congrArg List.length hd
    simpa using this
  omega

/-- The value stored by the Linux loader for a line that passed
`isValidMAC` is non-empty, itself parses as a MAC address, and is not the
all-zero MAC. -/
lemma validMAC_strUpper {m : String} (h : isValidMAC m = true) :
    strUpper m ≠ "" ∧ parseMACok (strUpper m) = true ∧
      strUpper m ≠ "00:00:00:00:00:00" := by
  unfold isValidMAC at h
  simp only [Bool.and_eq_true, bne_iff_ne, ne_eq] at h
  obtain ⟨hp, hz⟩ := h
  refine ⟨strUpper_ne_empty hp, parseMACok_upper hp, ?_⟩
  intro hzz
  exact hz (strUpper_eq_zeroMAC_inv hzz)

/-! ### Cache (Go map) lemmas -/

lemma aLookup_aInsert_self (k v : String) (m : List (String × String)) :
    aLookup k (aInsert k v m) = some v := by
  induction m with
  | nil => simp [aInsert, aLookup]
  | cons kv rest ih =>
    obtain ⟨k', v'⟩ := kv
    by_cases hk : k' = k
    · subst hk
      simp [aInsert, aLookup]
    · simp [aInsert, aLookup, hk, ih]

lemma aLookup_aInsert_ne {k k' : String} (hne : k' ≠ k) (v : String)
    (m : List (String × String)) :
    aLookup k' (aInsert k v m) = aLookup k' m := by
  induction m with
  | nil => simp [aInsert, aLookup, Ne.symm hne]
  | cons kv rest ih =>
    obtain ⟨k'', v''⟩ := kv
    by_cases hk : k'' = k
    · subst hk
      simp [aInsert, aLookup, Ne.symm hne]
    · by_cases hk2 : k'' = k'
      · subst hk2
        simp [aInsert, aLookup, hk]
      · simp [aInsert, aLookup, hk, hk2, ih]

lemma aLookup_arpStep (ip : String) (c : List (String × String))
    (line : List String) :
    aLookup ip (arpStep c line) =
      match lineEntry ip line with
      | some v => some v
      | none => aLookup ip c := by
  cases line with
  | nil => simp [arpStep, lineEntry]
  | cons f0 t0 =>
    cases t0 with
    | nil => simp [arpStep, lineEntry]
    | cons f1 t1 =>
      cases t1 with
      | nil => simp [arpStep, lineEntry]
      | cons f2 t2 =>
        cases t2 with
        | nil => simp [arpStep, lineEntry]
        | cons f3 rest =>
          by_cases hv : isValidMAC f3 = true
          · by_cases hip : f0 = ip
            · subst hip
              simp [arpStep, lineEntry, hv, aLookup_aInsert_self]
            · simp [arpStep, lineEntry, hv, hip,
                aLookup_aInsert_ne (fun h => hip h.symm)]
          · simp [arpStep, lineEntry, hv]

lemma aLookup_foldl_arpStep (ip : String) :
    ∀ (lines : List (List String)) (c : List (String × String)),
      aLookup ip (lines.foldl arpStep c) =
        match tableLines ip lines with
        | some v => some v
        | none => aLookup ip c := by
  intro lines
  induction lines with
  | nil => intro c; simp [tableLines]
  | cons line rest ih =>
    intro c
    rw [List.foldl_cons, ih]
    cases htr : tableLines ip rest with
    | some v => simp [tableLines, htr]
    | none =>
      simp only [tableLines, htr]
      rw [aLookup_arpStep]

/-- When the ARP file holds no usable entry for `ip`, a loader run cannot
make `ip` appear in the cache. -/
lemma load_preserves_miss {env : REnv} {ip : String} (ht : tableValue env ip = none)
    (r : RState) :
    aLookup ip (loadLinuxARPTable env r).cache = aLookup ip r.cache := by
  unfold loadLinuxARPTable
  split
  · rfl
  · unfold tableValue at ht
    cases hfile : env.arpFile with
    | none => rfl
    | some lines =>
      rw [hfile] at ht
      simp only [] at ht
      simp only []
      rw [aLookup_foldl_arpStep, ht]

lemma reload_preserves_miss {env : REnv} {ip : String}
    (ht : tableValue env ip = none) (r : RState) :
    aLookup ip (reloadARPTable env r).cache = aLookup ip r.cache :=
  load_preserves_miss ht r

/-! ### C2: `reloadARPTable` never re-reads the table once it is loaded -/

/-- Environment for the C2 failing input: `/proc/net/arp` readable and
holding a fresh, valid entry for 10.0.0.9. -/
def c2Env : REnv :=
  { arpFile := some [["10.0.0.9", "0x1", "0x2", "aa:bb:cc:dd:ee:ff", "*", "eth0"]],
    ifaces := [] }

/-- Resolver state at the C2 failing input: table already loaded once
(before the entry existed), 10.0.0.9 not cached. -/
def c2State : RState := { cache := [], arpLoaded := true }

/-- C2 fails on the code: with `arpLoaded = true`, `reloadARPTable` calls
the loader, the loader early-returns (the flag is never reset, contrary to
the function's own comment), so an entry that is present in the neighbor
table at reload time is still missed by the cache lookup right after. -/
theorem C2_reload_does_not_reload :
    tableValue c2Env "10.0.0.9" = some "AA:BB:CC:DD:EE:FF" ∧
    reloadARPTable c2Env c2State = c2State ∧
    getMACFromCache (reloadARPTable c2Env c2State) "10.0.0.9" = "" := by
  refine ⟨by decide, by decide, by decide⟩

/-! ### C3: `GetMACAddress` returns the empty string when nothing knows
the MAC -/

/-- C3: `GetMACAddress` is a total function of the resolver state and the
environment (the embedded Go code always terminates with a string), and
whenever the cache, the local interfaces and the neighbor table all lack
the IP — so the provoked ARP re-resolution re-reads a table that still
lacks it — the result is the empty string, not an error. -/
theorem C3_getMACAddress_empty_when_unknown :
    ∀ (env : REnv) (r : RState) (ip : String),
      aLookup ip r.cache = none →
      getMACFromLocalInterfaces env ip = "" →
      tableValue env ip = none →
      (getMACAddress env r ip).1 = "" := by
  intro env r ip hc hl ht
  have hens : aLookup ip (ensureARPTableLoaded env r).cache = none := by
    unfold ensureARPTableLoaded
    split
    · exact hc
    · rw [load_preserves_miss ht, hc]
  have h2 : aLookup ip (reloadARPTable env (ensureARPTableLoaded env r)).cache
      = none := by
    rw [reload_preserves_miss ht, hens]
  have h3 : aLookup ip (reloadARPTable env (reloadARPTable env
      (ensureARPTableLoaded env r))).cache = none := by
    rw [reload_preserves_miss ht, reload_preserves_miss ht, hens]
  have e0 : getMACFromCache r ip = "" := by
    unfold getMACFromCache
    rw [hc]
  have e1 : getMACFromCache (ensureARPTableLoaded env r) ip = "" := by
    unfold getMACFromCache
    rw [hens]
  have e2 : getMACFromCache (reloadARPTable env (ensureARPTableLoaded env r)) ip
      = "" := by
    unfold getMACFromCache
    rw [h2]
  have e3 : getMACFromCache (reloadARPTable env (reloadARPTable env
      (ensureARPTableLoaded env r))) ip = "" := by
    unfold getMACFromCache
    rw [h3]
  simp [getMACAddress, e0, e1, e2, e3, hl]

/-- Witness for C3: an IP with no ARP data anywhere concrete. -/
theorem C3_witness :
    aLookup "10.1.2.3" (RState.mk [] false).cache = none ∧
    getMACFromLocalInterfaces (REnv.mk none []) "10.1.2.3" = "" ∧
    tableValue (REnv.mk none []) "10.1.2.3" = none ∧
    (getMACAddress (REnv.mk none []) (RState.mk [] false) "10.1.2.3").1 = "" :=
  ⟨by decide, by decide, by decide,
    C3_getMACAddress_empty_when_unknown (REnv.mk none []) (RState.mk [] false)
      "10.1.2.3" (by decide) (by decide) (by decide)⟩

/-! ### C8: `GetMACAddress` is idempotent under a fixed environment -/

lemma load_idem (env : REnv) (r : RState) :
    loadLinuxARPTable env (loadLinuxARPTable env r) = loadLinuxARPTable env r := by
  by_cases h : r.arpLoaded = true
  · simp [loadLinuxARPTable, h]
  · cases hfile : env.arpFile with
    | none => simp [loadLinuxARPTable, h, hfile]
    | some lines => simp [loadLinuxARPTable, h, hfile]

lemma ensure_eq_load (env : REnv) (r : RState) :
    ensureARPTableLoaded env r = loadLinuxARPTable env r := by
  by_cases h : r.arpLoaded = true
  · simp [ensureARPTableLoaded, loadLinuxARPTable, h]
  · simp [ensureARPTableLoaded, h]

/-- Branch 1 of `GetMACAddress`: cache hit. -/
lemma getMACAddress_cache_hit {env : REnv} {r : RState} {ip : String}
    (h0 : getMACFromCache r ip ≠ "") :
    getMACAddress env r ip = (getMACFromCache r ip, r) := by
  simp [getMACAddress, h0]

/-- Branch 2 of `GetMACAddress`: local-interface hit, cached on the way
out. -/
lemma getMACAddress_local_hit {env : REnv} {r : RState} {ip : String}
    (h0 : getMACFromCache r ip = "")
    (hl : getMACFromLocalInterfaces env ip ≠ "") :
    getMACAddress env r ip = (getMACFromLocalInterfaces env ip,
      { r with cache := aInsert ip (getMACFromLocalInterfaces env ip) r.cache }) := by
  simp [getMACAddress, h0, hl]

/-- Branch 3 of `GetMACAddress`: found after the table load. -/
lemma getMACAddress_table_hit {env : REnv} {r : RState} {ip : String}
    (h0 : getMACFromCache r ip = "")
    (hl : getMACFromLocalInterfaces env ip = "")
    (h1 : getMACFromCache (loadLinuxARPTable env r) ip ≠ "") :
    getMACAddress env r ip =
      (getMACFromCache (loadLinuxARPTable env r) ip, loadLinuxARPTable env r) := by
  have hEL := ensure_eq_load env r
  simp [getMACAddress, h0, hl, hEL, h1]

/-- Miss everywhere: both reloads are no-ops once the load has been
attempted, so the call returns the empty string with the loaded state. -/
lemma getMACAddress_all_miss {env : REnv} {r : RState} {ip : String}
    (h0 : getMACFromCache r ip = "")
    (hl : getMACFromLocalInterfaces env ip = "")
    (h1 : getMACFromCache (loadLinuxARPTable env r) ip = "") :
    getMACAddress env r ip = ("", loadLinuxARPTable env r) := by
  have hEL := ensure_eq_load env r
  have k2 : reloadARPTable env (loadLinuxARPTable env r) = loadLinuxARPTable env r := by
    unfold reloadARPTable
    exact load_idem env r
  simp [getMACAddress, h0, hl, hEL, k2, h1]

/-- C8: two sequential calls for the same IP with an unchanged
environment return the same MAC string. -/
theorem C8_getMACAddress_idempotent :
    ∀ (env : REnv) (r : RState) (ip : String),
      (getMACAddress env (getMACAddress env r ip).2 ip).1 =
        (getMACAddress env r ip).1 := by
  intro env r ip
  by_cases h0 : getMACFromCache r ip = ""
  · by_cases hl : getMACFromLocalInterfaces env ip = ""
    · by_cases h1 : getMACFromCache (loadLinuxARPTable env r) ip = ""
      · -- full miss: second call misses everywhere as well
        rw [getMACAddress_all_miss h0 hl h1]
        have h1' : getMACFromCache (loadLinuxARPTable env
            (loadLinuxARPTable env r)) ip = "" := by
          rw [load_idem]
          exact h1
        rw [getMACAddress_all_miss h1 hl h1']
      · -- found in the loaded table; second call hits the cache
        rw [getMACAddress_table_hit h0 hl h1]
        rw [getMACAddress_cache_hit h1]
    · -- local-interface hit was cached; second call hits the cache
      rw [getMACAddress_local_hit h0 hl]
      have hc2 : getMACFromCache
          { r with cache := aInsert ip (getMACFromLocalInterfaces env ip) r.cache }
          ip = getMACFromLocalInterfaces env ip := by
        unfold getMACFromCache
        rw [aLookup_aInsert_self]
      rw [getMACAddress_cache_hit (by rw [hc2]; exact hl), hc2]
  · -- cache hit; the state is unchanged, so the second call hits again
    rw [getMACAddress_cache_hit h0, getMACAddress_cache_hit h0]

/-! ### C4: what the cache writes can and cannot contain -/

lemma aLookup_isSome_aInsert (k k0 v : String) (m : List (String × String))
    (h : (aLookup k m).isSome = true) :
    (aLookup k (aInsert k0 v m)).isSome = true := by
  by_cases hk : k = k0
  · subst hk
    rw [aLookup_aInsert_self]
    rfl
  · rw [aLookup_aInsert_ne hk]
    exact h

lemma arpStep_preserves_some {k : String} (c : List (String × String))
    (line : List String) (h : (aLookup k c).isSome = true) :
    (aLookup k (arpStep c line)).isSome = true := by
  rw [aLookup_arpStep]
  cases hle : lineEntry k line with
  | some v => rfl
  | none => exact h

lemma foldl_preserves_some {k : String} :
    ∀ (lines : List (List String)) (c : List (String × String)),
      (aLookup k c).isSome = true →
      (aLookup k (lines.foldl arpStep c)).isSome = true := by
  intro lines
  induction lines with
  | nil => intro c h; exact h
  | cons line rest ih =>
    intro c h
    rw [List.foldl_cons]
    exact ih _ (arpStep_preserves_some c line h)

/-- The loader never deletes a cache key. -/
lemma load_preserves_some (env : REnv) (r : RState) (k : String)
    (h : (aLookup k r.cache).isSome = true) :
    (aLookup k (loadLinuxARPTable env r).cache).isSome = true := by
  unfold loadLinuxARPTable
  split
  · exact h
  · cases env.arpFile with
    | none => exact h
    | some lines => exact foldl_preserves_some lines r.cache h

lemma tableLines_some {ip : String} {v : String} :
    ∀ {lines : List (List String)}, tableLines ip lines = some v →
      ∃ m, isValidMAC m = true ∧ v = strUpper m := by
  intro lines
  induction lines with
  | nil => intro h; exact absurd h (by simp [tableLines])
  | cons line rest ih =>
    intro h
    unfold tableLines at h
    cases htr : tableLines ip rest with
    | some w =>
      rw [htr] at h
      simp only [Option.some.injEq] at h
      subst h
      exact ih htr
    | none =>
      rw [htr] at h
      simp only [] at h
      unfold lineEntry at h
      split at h
      · split_ifs at h with hcond
        · simp only [Option.some.injEq] at h
          exact ⟨_, hcond.2, h.symm⟩
      · exact absurd h (by simp)

/-- Every value the loader writes that was not already present is
non-empty, parses as a MAC, and is not the all-zero MAC. -/
lemma load_value_new {env : REnv} {r : RState} {k v : String}
    (h : aLookup k (loadLinuxARPTable env r).cache = some v) :
    aLookup k r.cache = some v ∨
      (v ≠ "" ∧ parseMACok v = true ∧ v ≠ "00:00:00:00:00:00") := by
  unfold loadLinuxARPTable at h
  split at h
  · exact Or.inl h
  · cases hfile : env.arpFile with
    | none =>
      rw [hfile] at h
      exact Or.inl h
    | some lines =>
      rw [hfile] at h
      simp only [] at h
      rw [aLookup_foldl_arpStep] at h
      cases htl : tableLines k lines with
      | some w =>
        rw [htl] at h
        simp only [Option.some.injEq] at h
        subst h
        obtain ⟨m, hm, rfl⟩ := tableLines_some htl
        exact Or.inr (validMAC_strUpper hm)
      | none =>
        rw [htl] at h
        exact Or.inl h

/-- The possible resolver states after one `GetMACAddress` call. -/
lemma getMACAddress_state (env : REnv) (r : RState) (ip : String) :
    (getMACAddress env r ip).2 = r ∨
    (∃ lm, lm ≠ "" ∧ (getMACAddress env r ip).2 =
      { r with cache := aInsert ip lm r.cache }) ∨
    (getMACAddress env r ip).2 = loadLinuxARPTable env r := by
  by_cases h0 : getMACFromCache r ip = ""
  · by_cases hl : getMACFromLocalInterfaces env ip = ""
    · by_cases h1 : getMACFromCache (loadLinuxARPTable env r) ip = ""
      · rw [getMACAddress_all_miss h0 hl h1]
        exact Or.inr (Or.inr rfl)
      · rw [getMACAddress_table_hit h0 hl h1]
        exact Or.inr (Or.inr rfl)
    · rw [getMACAddress_local_hit h0 hl]
      exact Or.inr (Or.inl ⟨_, hl, rfl⟩)
  · rw [getMACAddress_cache_hit h0]
    exact Or.inl rfl

/-- C4 (amended): no operation deletes a cache key, and every value the
platform loader stores that was not already present is a non-empty MAC
string distinct from the all-zero MAC; the `GetMACAddress`
local-interface write is only guaranteed to store a non-empty string —
it is not validated. -/
theorem C4_cache_invariant_amended :
    (∀ (env : REnv) (r : RState) (k : String),
      (aLookup k r.cache).isSome = true →
      (aLookup k (loadLinuxARPTable env r).cache).isSome = true)
    ∧ (∀ (env : REnv) (r : RState) (k v : String),
      aLookup k (loadLinuxARPTable env r).cache = some v →
      aLookup k r.cache = some v ∨
        (v ≠ "" ∧ parseMACok v = true ∧ v ≠ "00:00:00:00:00:00"))
    ∧ (∀ (env : REnv) (r : RState) (ip k : String),
      (aLookup k r.cache).isSome = true →
      (aLookup k (getMACAddress env r ip).2.cache).isSome = true)
    ∧ (∀ (env : REnv) (r : RState) (ip k v : String),
      aLookup k (getMACAddress env r ip).2.cache = some v →
      aLookup k r.cache = some v ∨ v ≠ "") := by
  refine ⟨load_preserves_some, fun _ _ _ _ => load_value_new, ?_, ?_⟩
  · intro env r ip k hk
    rcases getMACAddress_state env r ip with h | ⟨lm, hlm, h⟩ | h
    · rw [h]
      exact hk
    · rw [h]
      exact aLookup_isSome_aInsert k ip lm r.cache hk
    · rw [h]
      exact load_preserves_some env r k hk
  · intro env r ip k v hv
    rcases getMACAddress_state env r ip with h | ⟨lm, hlm, h⟩ | h
    · rw [h] at hv
      exact Or.inl hv
    · rw [h] at hv
      by_cases hk : k = ip
      · subst hk
        rw [aLookup_aInsert_self] at hv
        simp only [Option.some.injEq] at hv
        subst hv
        exact Or.inr hlm
      · rw [aLookup_aInsert_ne hk] at hv
        exact Or.inl hv
    · rw [h] at hv
      rcases load_value_new hv with hold | hvalid
      · exact Or.inl hold
      · exact Or.inr hvalid.1

/-- Environment for the C4 counterexample: an up local interface bound to
10.0.0.5 whose hardware address is the all-zero MAC (as bonding or bridge
devices report before a port is attached). -/
def c4Env : REnv :=
  { arpFile := none,
    ifaces := [{ up := true, addrs := ["10.0.0.5"], hw := "00:00:00:00:00:00" }] }

/-- C4 fails as stated on the code: the local-interface path of
`GetMACAddress` stores the interface's hardware address with no
validation, so the all-zero MAC is written into the cache. -/
theorem C4_counterexample_allzero_write :
    aLookup "10.0.0.5"
        ((getMACAddress c4Env (RState.mk [] true) "10.0.0.5").2.cache) =
      some "00:00:00:00:00:00" := by decide

/-- Witness for C4: a loader write at a concrete environment. -/
def c4LoadEnv : REnv :=
  { arpFile := some [["10.0.0.9", "0x1", "0x2", "aa:bb:cc:dd:ee:ff", "*", "eth0"]],
    ifaces := [] }

theorem C4_witness :
    aLookup "10.0.0.9" ((loadLinuxARPTable c4LoadEnv (RState.mk [] false)).cache) =
        some "AA:BB:CC:DD:EE:FF" ∧
      (aLookup "10.0.0.9" (RState.mk [] false).cache = some "AA:BB:CC:DD:EE:FF" ∨
        ("AA:BB:CC:DD:EE:FF" ≠ "" ∧ parseMACok "AA:BB:CC:DD:EE:FF" = true ∧
          "AA:BB:CC:DD:EE:FF" ≠ "00:00:00:00:00:00")) :=
  ⟨by decide,
    C4_cache_invariant_amended.2.1 c4LoadEnv (RState.mk [] false) "10.0.0.9"
      "AA:BB:CC:DD:EE:FF" (by decide)⟩

/-! ## ProbeEngine / ScanCoordinator: scanner.go `ScanSubnet`

The per-host goroutine body becomes a pure function of an environment
describing the network's responses; the concurrency is flattened to a
sequential traversal (all aggregate claims here concern only the final,
sorted result and per-host effects).  Wall-clock durations
(`ProcessTime`) stay outside the embedding. -/

/-- scanner.go `HostInfo` (ProcessTime omitted: wall-clock). -/
structure HostInfo where
  IP : String
  MAC : String
  Hostname : String
  OpenPorts : List Nat
  FoundVia : String
deriving DecidableEq

/-- What the network and OS answer during a scan. -/
structure SEnv where
  icmp : String → Bool
  tcpDial : String → Nat → Bool
  mac : String → String
  dns : String → Option (List String)

/-- scanner.go `getOpenPorts` port list. -/
def commonPorts : List Nat := [80, 443, 22, 21, 23, 25, 53, 135, 139, 445]

/-- scanner.go `getOpenPorts`: the ports whose TCP dial succeeds, in list
order. -/
def getOpenPorts (env : SEnv) (ip : String) : List Nat :=
  commonPorts.filter (fun port => env.tcpDial ip port)

/-- strings.TrimSuffix of a single trailing dot. -/
def trimSuffixDot (s : String) : String :=
  if s.data.getLast? = some '.' then ⟨s.data.dropLast⟩ else s

/-- The hostname computed from a `net.LookupAddr` outcome (`none` models
the error case). -/
def hostnameFromDNS (res : Option (List String)) : String :=
  match res with
  | some (n :: _) => trimSuffixDot n
  | _ => ""

/-- The observable outcome of one goroutine body of `ScanSubnet`: the
record appended (if any) and whether MAC resolution and reverse DNS were
invoked. -/
structure ProbeEffects where
  record : Option HostInfo
  macResolved : Bool
  dnsLooked : Bool

/-- The goroutine body of scanner.go `ScanSubnet` for one candidate. -/
def probeHost (useTCP : Bool) (env : SEnv) (ip : String) : ProbeEffects :=
  let icmpReachable := env.icmp ip
  let pr : List Nat × String :=
    if icmpReachable then
      if useTCP then
        let ports := getOpenPorts env ip
        (ports, if 0 < ports.length then "ICMP+TCP" else "ICMP")
      else ([], "ICMP")
    else
      if useTCP then
        let ports := getOpenPorts env ip
        (ports, if 0 < ports.length then "TCP" else "")
      else ([], "")
  if icmpReachable = true ∨ 0 < pr.1.length then
    { record := some
        { IP := ip,
          MAC := if icmpReachable then env.mac ip else "",
          Hostname := if icmpReachable then hostnameFromDNS (env.dns ip) else "",
          OpenPorts := pr.1,
          FoundVia := pr.2 },
      macResolved := icmpReachable, dnsLooked := icmpReachable }
  else
    { record := none, macResolved := false, dnsLooked := false }

/-- The comparison closure passed to `sort.Slice`: numeric when both IPs
parse as IPv4, byte-wise lexical string comparison otherwise. -/
def strLtChars : List Char → List Char → Bool
  | [], [] => false
  | [], _ :: _ => true
  | _ :: _, [] => false
  | a :: as, b :: bs =>
    if a.toNat < b.toNat then true
    else if b.toNat < a.toNat then false
    else strLtChars as bs

def goStrLt (a b : String) : Bool := strLtChars a.data b.data

def hostLess (a b : HostInfo) : Bool :=
  match parseIPv4 a.IP, parseIPv4 b.IP with
  | some n1, some n2 => decide (n1 < n2)
  | _, _ => goStrLt a.IP b.IP

/-- `sort.Slice` modeled as an insertion sort with the Go `less`
closure: it produces a permutation of its input that is pairwise-sorted
whenever `less` is a strict weak order — exactly Go's contract for a
valid `less`. -/
def insertBy (less : HostInfo → HostInfo → Bool) (x : HostInfo) :
    List HostInfo → List HostInfo
  | [] => [x]
  | y :: ys => if less y x then y :: insertBy less x ys else x :: y :: ys

def sortByLess (less : HostInfo → HostInfo → Bool) : List HostInfo → List HostInfo
  | [] => []
  | x :: xs => insertBy less x (sortByLess less xs)

/-- scanner.go `ScanResult`. -/
structure ScanResult where
  ReachableHosts : List HostInfo
  Total : Nat
  Completed : Nat

/-- scanner.go `ScanSubnet`: one probe per candidate, collect the
records, sort with the `hostLess` closure; every goroutine increments the
completed counter exactly once. -/
def scanSubnet (useTCP : Bool) (env : SEnv) (ips : List String) : ScanResult :=
  { ReachableHosts :=
      sortByLess hostLess (ips.filterMap (fun ip => (probeHost useTCP env ip).record)),
    Total := ips.length,
    Completed := ips.length }

/-- The ordering property the spec asserts of the output (every later
record is not `hostLess`-smaller than any earlier one). -/
def sortedByLess (less : HostInfo → HostInfo → Bool) : List HostInfo → Bool
  | [] => true
  | a :: rest => rest.all (fun b => ! less b a) && sortedByLess less rest

/-! ### Per-host probe facts used by C5 and C6 -/

lemma probeHost_record_IP {useTCP : Bool} {env : SEnv} {ip : String} {r : HostInfo}
    (h : (probeHost useTCP env ip).record = some r) : r.IP = ip := by
  simp only [probeHost] at h
  split_ifs at h <;>
    first
      | (simp only [Option.some.injEq] at h; subst h; rfl)
      | exact absurd h (by simp)

lemma probeHost_macResolved {useTCP : Bool} {env : SEnv} {ip : String}
    (h : (probeHost useTCP env ip).macResolved = true) : env.icmp ip = true := by
  by_cases hic : env.icmp ip = true
  · exact hic
  · exfalso
    have hic' : env.icmp ip = false := by simpa using hic
    simp only [probeHost, hic'] at h
    split_ifs at h <;> simp_all

lemma probeHost_dnsLooked {useTCP : Bool} {env : SEnv} {ip : String}
    (h : (probeHost useTCP env ip).dnsLooked = true) : env.icmp ip = true := by
  by_cases hic : env.icmp ip = true
  · exact hic
  · exfalso
    have hic' : env.icmp ip = false := by simpa using hic
    simp only [probeHost, hic'] at h
    split_ifs at h <;> simp_all

/-- A host that fails ICMP but has at least one open TCP port yields a
TCP-only record with empty MAC and hostname, and neither MAC resolution
nor DNS was invoked. -/
lemma probeHost_tcp_only {env : SEnv} {ip : String}
    (hicmp : env.icmp ip = false) (hports : getOpenPorts env ip ≠ []) :
    probeHost true env ip =
      { record := some
          { IP := ip, MAC := "", Hostname := "",
            OpenPorts := getOpenPorts env ip, FoundVia := "TCP" },
        macResolved := false, dnsLooked := false } := by
  have hlen : 0 < (getOpenPorts env ip).length := List.length_pos.mpr hports
  simp [probeHost, hicmp, hlen]

lemma mem_insertBy {less : HostInfo → HostInfo → Bool} {x : HostInfo} :
    ∀ {l : List HostInfo} {a : HostInfo},
      a ∈ insertBy less x l ↔ a = x ∨ a ∈ l := by
  intro l
  induction l with
  | nil => intro a; simp [insertBy]
  | cons y ys ih =>
    intro a
    unfold insertBy
    split
    · simp only [List.mem_cons, ih]
      try tauto
    · simp only [List.mem_cons]
      try tauto

lemma mem_sortByLess {less : HostInfo → HostInfo → Bool} :
    ∀ {l : List HostInfo} {a : HostInfo}, a ∈ sortByLess less l ↔ a ∈ l := by
  intro l
  induction l with
  | nil => intro a; simp [sortByLess]
  | cons x xs ih =>
    intro a
    unfold sortByLess
    rw [mem_insertBy]
    simp [ih]

/-- C6: a host failing ICMP but with an open TCP port (TCP scanning
enabled) appears in the `ScanSubnet` result with FoundVia = "TCP", empty
MAC and empty hostname; and MAC resolution / reverse DNS only ever run
for ICMP-reachable hosts. -/
theorem C6_tcp_only_discovery :
    (∀ (env : SEnv) (ips : List String) (ip : String), ip ∈ ips →
      env.icmp ip = false → getOpenPorts env ip ≠ [] →
      ∃ r ∈ (scanSubnet true env ips).ReachableHosts,
        r.IP = ip ∧ r.FoundVia = "TCP" ∧ r.MAC = "" ∧ r.Hostname = "")
    ∧ (∀ (useTCP : Bool) (env : SEnv) (ip : String),
      (probeHost useTCP env ip).macResolved = true ∨
        (probeHost useTCP env ip).dnsLooked = true →
      env.icmp ip = true) := by
  constructor
  · intro env ips ip hmem hicmp hports
    have hrec : (probeHost true env ip).record = some
        { IP := ip, MAC := "", Hostname := "",
          OpenPorts := getOpenPorts env ip, FoundVia := "TCP" } := by
      rw [probeHost_tcp_only hicmp hports]
    refine ⟨{ IP := ip,
              MAC := "",
              Hostname := "",
              OpenPorts := getOpenPorts env ip,
              FoundVia := "TCP" }, ?_, rfl, rfl, rfl, rfl⟩
    show _ ∈ sortByLess hostLess
      (ips.filterMap (fun ip => (probeHost true env ip).record))
    rw [mem_sortByLess, List.mem_filterMap]
    exact ⟨ip, hmem, hrec⟩
  · intro useTCP env ip h
    rcases h with h | h
    · exact probeHost_macResolved h
    · exact probeHost_dnsLooked h

/-- Environment for the C6 witness: ICMP always fails, only port 80
answers TCP. -/
def c6Env : SEnv :=
  { icmp := fun _ => false,
    tcpDial := fun _ port => port = 80,
    mac := fun _ => "AA:BB:CC:DD:EE:FF",
    dns := fun _ => some ["name.local."] }

theorem C6_witness :
    ("10.0.0.7" ∈ ["10.0.0.7"] ∧ c6Env.icmp "10.0.0.7" = false ∧
      getOpenPorts c6Env "10.0.0.7" ≠ []) ∧
    ∃ r ∈ (scanSubnet true c6Env ["10.0.0.7"]).ReachableHosts,
      r.IP = "10.0.0.7" ∧ r.FoundVia = "TCP" ∧ r.MAC = "" ∧ r.Hostname = "" :=
  ⟨⟨by decide, rfl, by decide⟩,
    C6_tcp_only_discovery.1 c6Env ["10.0.0.7"] "10.0.0.7"
      (by decide) rfl (by decide)⟩

/-! ### C5: output ordering of `ScanSubnet` -/

/-- The sort key the spec talks about: the 32-bit big-endian numeric
value of the record's IPv4 address (0 when it does not parse — only used
under the hypothesis that it does). -/
def hostKey (r : HostInfo) : Nat := (parseIPv4 r.IP).getD 0

lemma pairwise_insertBy {less : HostInfo → HostInfo → Bool}
    {key : HostInfo → Nat} {x : HostInfo} :
    ∀ {m : List HostInfo},
      List.Pairwise (fun a b => key a ≤ key b) m →
      (∀ y ∈ m, less y x = decide (key y < key x)) →
      List.Pairwise (fun a b => key a ≤ key b) (insertBy less x m) := by
  intro m
  induction m with
  | nil =>
    intro _ _
    simp [insertBy]
  | cons y ys ih =>
    intro hm hc
    have hy := hc y (by simp)
    unfold insertBy
    split
    · rename_i hyx
      rw [hy] at hyx
      have hlt : key y < key x := of_decide_eq_true hyx
      constructor
      · intro z hz
        rw [mem_insertBy] at hz
        rcases hz with rfl | hz
        · exact Nat.le_of_lt hlt
        · exact (List.pairwise_cons.mp hm).1 z hz
      · exact ih (List.pairwise_cons.mp hm).2
          (fun y' hy' => hc y' (List.mem_cons_of_mem _ hy'))
    · rename_i hyx
      rw [hy] at hyx
      have hle : key x ≤ key y := by
        have hnlt : ¬ key y < key x := fun hlt => hyx (decide_eq_true hlt)
        omega
      constructor
      · intro z hz
        rcases List.mem_cons.mp hz with rfl | hz
        · exact hle
        · exact Nat.le_trans hle ((List.pairwise_cons.mp hm).1 z hz)
      · exact hm

lemma sortByLess_pairwise {less : HostInfo → HostInfo → Bool}
    {key : HostInfo → Nat} :
    ∀ (l : List HostInfo),
      (∀ a ∈ l, ∀ b ∈ l, less a b = decide (key a < key b)) →
      List.Pairwise (fun a b => key a ≤ key b) (sortByLess less l) := by
  intro l
  induction l with
  | nil =>
    intro _
    simp [sortByLess]
  | cons x xs ih =>
    intro hl
    unfold sortByLess
    apply pairwise_insertBy
    · exact ih (fun a ha b hb =>
        hl a (List.mem_cons_of_mem _ ha) b (List.mem_cons_of_mem _ hb))
    · intro y hy
      rw [mem_sortByLess] at hy
      exact hl y (List.mem_cons_of_mem _ hy) x (by simp)

/-- C5 (amended with the hypothesis that every candidate address parses
as IPv4 — always the case for enumerator-produced candidates): the
`ScanSubnet` result is sorted ascending by 32-bit big-endian numeric
IPv4 value. -/
theorem C5_output_sorted_numeric :
    ∀ (useTCP : Bool) (env : SEnv) (ips : List String),
      (∀ ip ∈ ips, (parseIPv4 ip).isSome = true) →
      List.Pairwise (fun a b => hostKey a ≤ hostKey b)
        ((scanSubnet useTCP env ips).ReachableHosts) := by
  intro useTCP env ips hparse
  apply sortByLess_pairwise
  intro a ha b hb
  have hka : (parseIPv4 a.IP).isSome = true := by
    rw [List.mem_filterMap] at ha
    obtain ⟨ip, hip, hprobe⟩ := ha
    rw [probeHost_record_IP hprobe]
    exact hparse ip hip
  have hkb : (parseIPv4 b.IP).isSome = true := by
    rw [List.mem_filterMap] at hb
    obtain ⟨ip, hip, hprobe⟩ := hb
    rw [probeHost_record_IP hprobe]
    exact hparse ip hip
  obtain ⟨na, hna⟩ := Option.isSome_iff_exists.mp hka
  obtain ⟨nb, hnb⟩ := Option.isSome_iff_exists.mp hkb
  unfold hostLess hostKey
  rw [hna, hnb]
  simp

/-- Environment for the C5 witness and counterexample: every host
answers ICMP, TCP disabled, no MAC, no DNS. -/
def c5Env : SEnv :=
  { icmp := fun _ => true,
    tcpDial := fun _ _ => false,
    mac := fun _ => "",
    dns := fun _ => none }

theorem C5_witness :
    (∀ ip ∈ ["10.0.0.2", "10.0.0.1"], (parseIPv4 ip).isSome = true) ∧
    List.Pairwise (fun a b => hostKey a ≤ hostKey b)
      ((scanSubnet false c5Env ["10.0.0.2", "10.0.0.1"]).ReachableHosts) :=
  ⟨by decide, C5_output_sorted_numeric false c5Env _ (by decide)⟩

/-- The records the three C5 counterexample candidates produce. -/
def c5h1 : HostInfo :=
  { IP := "2.0.0.0", MAC := "", Hostname := "", OpenPorts := [], FoundVia := "ICMP" }

def c5h2 : HostInfo :=
  { IP := "10.0.0.0", MAC := "", Hostname := "", OpenPorts := [], FoundVia := "ICMP" }

def c5h3 : HostInfo :=
  { IP := "1z", MAC := "", Hostname := "", OpenPorts := [], FoundVia := "ICMP" }

def c5Hosts : List HostInfo := [c5h1, c5h2, c5h3]

/-- All six orderings of the three records. -/
def c5AllOrders : List (List HostInfo) :=
  [[c5h1, c5h2, c5h3], [c5h1, c5h3, c5h2], [c5h2, c5h1, c5h3],
   [c5h2, c5h3, c5h1], [c5h3, c5h1, c5h2], [c5h3, c5h2, c5h1]]

/-- C5 fails as stated once an address does not parse as IPv4: with
candidates 2.0.0.0, 10.0.0.0 and the unparseable "1z", the comparison
closure is cyclic (2.0.0.0 < 10.0.0.0 numerically, 10.0.0.0 < "1z" and
"1z" < 2.0.0.0 lexically), the actual output is not sorted under it, and
indeed no permutation of these records is. -/
theorem C5_counterexample_lexical_cycle :
    sortedByLess hostLess
        ((scanSubnet false c5Env ["2.0.0.0", "10.0.0.0", "1z"]).ReachableHosts)
      = false ∧
    (scanSubnet false c5Env ["2.0.0.0", "10.0.0.0", "1z"]).ReachableHosts
      = c5Hosts ∧
    c5AllOrders.all (fun l => ! sortedByLess hostLess l) = true := by
  refine ⟨by decide, by decide, by decide⟩

example : isValidMAC "aa-bb-cc-dd-ee-ff" = true := by decide
example : isValidMAC "aabb.ccdd.eeff" = true := by decide
example : isValidMAC "zz:bb:cc:dd:ee:ff" = false := by decide
example : strUpper "aa:bb:cc:dd:ee:ff" = "AA:BB:CC:DD:EE:FF" := by decide

example : parseCIDR "192.168.1.0/30" = some (3232235776, 30) := by decide
example : getIPsFromSubnet "192.168.1.0/30" =
    .ok ["192.168.1.1", "192.168.1.2"] := by decide
example : getIPsFromSubnet "192.168.1.0/31" =
    .ok ["192.168.1.0", "192.168.1.1"] := by decide
example : getIPsFromSubnet "192.168.1.7/32" = .ok ["192.168.1.7"] := by decide
example : getIPsFromSubnet "not-a-subnet" = .err := by decide

/-! ## The UDP-capable scanner variant (the `ScanSubnet` with `UseUDP`)

This variant's goroutine body separates the TCP sweep from the UDP
sweep and runs the UDP probes only for hosts that already showed
responsiveness. -/

/-- Environment for the UDP-capable scanner. -/
structure SEnv2 where
  icmp : String → Bool
  icmpTime : String → Nat
  tcpDial : String → Nat → Bool
  udpDial : String → Nat → Bool
  udpReply : String → Nat → Bool
  mac : String → String
  dns : String → Option (List String)

def getOpenPorts2 (env : SEnv2) (ip : String) : List Nat :=
  commonPorts.filter (fun port => env.tcpDial ip port)

/-- `getOpenUDPPorts` port list. -/
def udpProbePorts : List Nat := [53, 67, 68, 69, 123, 137, 138, 161, 500, 514]

/-- `getOpenUDPPorts`: a port is reported open only when the UDP dial
succeeded and an application-layer reply was actually received. -/
def getOpenUDPPorts (env : SEnv2) (ip : String) : List Nat :=
  udpProbePorts.filter (fun port => env.udpDial ip port && env.udpReply ip port)

/-- The UDP variant's `HostInfo` (ProcessTime omitted: wall-clock). -/
structure HostInfo2 where
  IP : String
  MAC : String
  Hostname : String
  ICMPResponseTime : Nat
  OpenPorts : List Nat
deriving DecidableEq

/-- Observable outcome of one goroutine body of the UDP-capable
`ScanSubnet`: the record (if any) and whether the UDP sweep ran. -/
structure Probe2Effects where
  record : Option HostInfo2
  udpProbed : Bool

/-- The goroutine body of the UDP-capable `ScanSubnet` for one
candidate. -/
def probeHost2 (useTCP useUDP : Bool) (env : SEnv2) (ip : String) : Probe2Effects :=
  let icmpReachable := env.icmp ip
  let icmpResponseTime := if icmpReachable then env.icmpTime ip else 0
  let tcpPorts := if useTCP then getOpenPorts2 env ip else []
  let udpPorts :=
    if useUDP then
      if icmpReachable = true ∨ 0 < tcpPorts.length then getOpenUDPPorts env ip
      else []
    else []
  let openPorts := tcpPorts ++ udpPorts
  { record :=
      if icmpReachable = true ∨ 0 < openPorts.length then
        some
          { IP := ip,
            MAC := if icmpReachable then env.mac ip else "",
            Hostname := if icmpReachable then hostnameFromDNS (env.dns ip) else "",
            ICMPResponseTime := icmpResponseTime,
            OpenPorts := openPorts }
      else none,
    udpProbed := useUDP && (icmpReachable || decide (0 < tcpPorts.length)) }

/-- C7: with UDP scanning enabled, the UDP sweep runs exactly when the
host already showed responsiveness — its ICMP probe succeeded, or TCP
scanning was on and its TCP sweep found an open port. -/
theorem C7_udp_gated_on_responsiveness :
    ∀ (useTCP : Bool) (env : SEnv2) (ip : String),
      (probeHost2 useTCP true env ip).udpProbed = true ↔
        (env.icmp ip = true ∨ (useTCP = true ∧ getOpenPorts2 env ip ≠ [])) := by
  intro useTCP env ip
  simp only [probeHost2]
  cases hic : env.icmp ip
  · cases useTCP
    · simp
    · simp [List.length_pos]
  · simp

end Neti
